import Mathlib

/-
Verification development for the jsDAV WebDAV server core
(src/lib/DAV/server.js, src/lib/DAV/property/resourceType.js,
src/lib/DAVACL/abstractPrincipalCollection.js, src/unnamed/part_000,
which is the {DAV:}href property class).

The JavaScript source is shallowly embedded: request handlers become pure
functions over explicit request/tree models, fallible code returns Except,
and JavaScript-specific semantics that the code relies on (string-keyed
entries on Array values, string-vs-number relational comparison, headers
always being strings) are modelled explicitly where they matter.
-/

namespace JsDAV

/-- Error kinds raised by the server.  The exceptions module
(lib/DAV/exceptions.js) is not among the sources.
Modelled from the spec: section 7 lists each kind with its HTTP status code
(BadRequest 400, Forbidden 403, NotFound 404, MethodNotAllowed 405,
Conflict 409, PreconditionFailed 412, UnsupportedMediaType 415,
RequestedRangeNotSatisfiable 416, NotImplemented 501, ServerError 500). -/
inductive Exc where
  | badRequest
  | forbidden
  | notFound
  | methodNotAllowed
  | conflict
  | preconditionFailed
  | unsupportedMediaType
  | requestedRangeNotSatisfiable
  | notImplemented
  | serverError
deriving DecidableEq, Repr

/-- HTTP status code of each error kind (spec section 7). -/
def Exc.code : Exc → Nat
  | .badRequest => 400
  | .forbidden => 403
  | .notFound => 404
  | .methodNotAllowed => 405
  | .conflict => 409
  | .preconditionFailed => 412
  | .unsupportedMediaType => 415
  | .requestedRangeNotSatisfiable => 416
  | .notImplemented => 501
  | .serverError => 500

/-! ### String helpers

`Util.trim`, `Util.splitPath` and `Util.makeUnique` live in lib/DAV/util.js,
which is not among the sources.  They are modelled from the spec
(section 2: base-URI stripping, path split/join; section 4.4: strip quotes)
with the standard meanings their call sites assume. -/

/-- Boolean membership of a string in a list. -/
def strIn (s : String) : List String → Bool
  | [] => false
  | x :: xs => if x = s then true else strIn s xs

/-- Modelled from the spec: Util.makeUnique removes duplicate entries,
keeping the first occurrence of each. -/
def makeUnique (l : List String) : List String :=
  l.foldl (fun acc s => if strIn s acc then acc else acc ++ [s]) []

/-- Modelled from the spec: Util.trim(s, ch) strips the character from both
ends of the string (used with the slash and the double quote). -/
def trimCharList (ch : Char) (cs : List Char) : List Char :=
  ((cs.dropWhile (fun c => c = ch)).reverse.dropWhile (fun c => c = ch)).reverse

/-- Util.trim(s, slash) on a whole string. -/
def trimSlashes (s : String) : String :=
  ⟨trimCharList '/' s.data⟩

/-- Whether a string ends with the slash character. -/
def endsWithSlash (s : String) : Bool :=
  match s.data.getLast? with
  | some c => c = '/'
  | none => false

/-- JavaScript String.prototype.replace with a string pattern replaces only
the first occurrence (server.js line 1157 `uri.replace("//", "/")`). -/
def replaceFirstL (pat rep : List Char) : List Char → List Char
  | [] => []
  | c :: cs =>
    if pat.isPrefixOf (c :: cs) then rep ++ (c :: cs).drop pat.length
    else c :: replaceFirstL pat rep cs

/-- Whether pat occurs as a contiguous substring (JS indexOf > -1). -/
def hasSubL (pat : List Char) : List Char → Bool
  | [] => pat.isEmpty
  | c :: cs => pat.isPrefixOf (c :: cs) || hasSubL pat cs

/-- Whether a string contains two adjacent slashes. -/
def hasDblSlash (s : String) : Bool :=
  hasSubL [ '/', '/' ] s.data

/-- Drop everything up to and including the first occurrence of pat. -/
def dropThroughSub (pat : List Char) : List Char → Option (List Char)
  | [] => none
  | c :: cs =>
    if pat.isPrefixOf (c :: cs) then some ((c :: cs).drop pat.length)
    else dropThroughSub pat cs

/-- Modelled from node's Url.parse(uri).pathname for scheme-qualified URLs:
the path component after the authority, cut before any query string. -/
def urlPathname (s : String) : String :=
  match dropThroughSub [ ':', '/', '/' ] s.data with
  | none => s
  | some rest => ⟨(rest.dropWhile (fun c => c ≠ '/')).takeWhile (fun c => c ≠ '?')⟩

/-- Value of a hexadecimal digit. -/
def hexVal (c : Char) : Option Nat :=
  if ('0' ≤ c ∧ c ≤ '9') then some (c.toNat - 48)
  else if ('a' ≤ c ∧ c ≤ 'f') then some (c.toNat - 87)
  else if ('A' ≤ c ∧ c ≤ 'F') then some (c.toNat - 55)
  else none

/-- JavaScript unescape: percent sequences &#37;XX (and &#37;uXXXX) decode to the
character with that code; malformed sequences pass through unchanged. -/
def unescList : List Char → List Char
  | [] => []
  | c :: cs =>
    if c = '%' then
      match cs with
      | 'u' :: a :: b :: d :: e :: rest =>
        match hexVal a, hexVal b, hexVal d, hexVal e with
        | some x, some y, some z, some w =>
          Char.ofNat (((x * 16 + y) * 16 + z) * 16 + w) :: unescList rest
        | _, _, _, _ => c :: unescList ('u' :: a :: b :: d :: e :: rest)
      | a :: b :: rest =>
        match hexVal a, hexVal b with
        | some x, some y => Char.ofNat (x * 16 + y) :: unescList rest
        | _, _ => c :: unescList (a :: b :: rest)
      | [a] => c :: unescList [a]
      | [] => c :: unescList []
    else c :: unescList cs

/-- Split a character list at the first occurrence of a character. -/
def splitFirstChar (ch : Char) : List Char → Option (List Char × List Char)
  | [] => none
  | c :: cs =>
    if c = ch then some ([], cs)
    else
      match splitFirstChar ch cs with
      | some (a, b) => some (c :: a, b)
      | none => none

/-- Modelled from the spec: Util.splitPath splits a path into its parent
path and its final segment at the last slash; a path without a slash has
the empty parent. -/
def splitPath (s : String) : String × String :=
  match splitFirstChar '/' s.data.reverse with
  | some (nameRev, dirRev) => (⟨dirRev.reverse⟩, ⟨nameRev.reverse⟩)
  | none => (⟨[]⟩, s)

/-- Uppercase a string (JS toUpperCase over ASCII). -/
def strUpper (s : String) : String :=
  ⟨s.data.map Char.toUpper⟩

/-! ### calculateUri (server.js lines 1153-1173) -/

/-- The scheme-stripping step of calculateUri (line 1154-1155): a uri not
beginning with a slash but containing "://" is reduced to its pathname. -/
def schemeStrip (uriIn : String) : String :=
  if uriIn.data.head? ≠ some '/' ∧ hasSubL [ ':', '/', '/' ] uriIn.data then
    urlPathname uriIn
  else uriIn

/-- calculateUri: strip scheme and authority when present, collapse the
first double slash, require the base URI as a prefix (or the bare base URI
without its trailing slash), percent-decode and trim slashes.  Outside the
base URI the request is Forbidden. -/
def calculateUri (baseUri : String) (uriIn : String) : Except Exc String :=
  let uri2 : String := ⟨replaceFirstL [ '/', '/' ] [ '/' ] (schemeStrip uriIn).data⟩
  if baseUri.data.isPrefixOf uri2.data then
    Except.ok ⟨trimCharList '/' (unescList (uri2.data.drop baseUri.data.length))⟩
  else if uri2 ++ ("/") = baseUri then
    Except.ok ("")
  else
    Except.error Exc.forbidden

/-! ### Copy/Move information (server.js lines 2046-2124) and httpMove
(lines 991-1026) -/

/-- A node as far as COPY/MOVE validation is concerned. -/
structure CopyMoveNode where
  isCollection : Bool
deriving DecidableEq, Repr

/-- Request headers consumed by getCopyAndMoveInfo.  node header values are
strings; an absent header is none (an empty header string is falsy in the
source and behaves like an absent one where the code tests truthiness). -/
structure CopyMoveReq where
  url : String
  destinationHeader : Option String
  overwriteHeader : Option String

/-- The record returned by getCopyAndMoveInfo (destinationNode is omitted;
destinationExists captures its truthiness). -/
structure CopyMoveInfo where
  source : String
  destination : String
  destinationExists : Bool
deriving DecidableEq, Repr

/-- Parse of the Overwrite header value (lines 2068-2079): T and F
case-insensitively, anything else is invalid. -/
def owParse (ow : String) : Option Bool :=
  if strUpper ow = ("T") then some true
  else if strUpper ow = ("F") then some false
  else none

/-- getCopyAndMoveInfo: resolve source and Destination against the base
URI, validate the Overwrite header (default T, otherwise T/F
case-insensitively, else 400), require the destination parent to exist
(409) and to be a collection (415), and fail 412 when the destination
exists while overwrite is false.  The tree is modelled from the spec as a
path-to-node map; a missing path is the FileNotFound case. -/
def getCopyAndMoveInfo (baseUri : String) (req : CopyMoveReq)
    (tree : String → Option CopyMoveNode) : Except Exc CopyMoveInfo :=
  match calculateUri baseUri req.url with
  | .error e => .error e
  | .ok source =>
    match req.destinationHeader with
    | none => .error Exc.badRequest
    | some dh =>
      if dh = ("") then .error Exc.badRequest
      else
        match calculateUri baseUri dh with
        | .error e => .error e
        | .ok destination =>
          let ow := match req.overwriteHeader with
                    | none => ("T")
                    | some s => if s = ("") then ("T") else s
          match owParse ow with
          | none => .error Exc.badRequest
          | some overwrite =>
            match tree (splitPath destination).1 with
            | none => .error Exc.conflict
            | some parent =>
              if !parent.isCollection then .error Exc.unsupportedMediaType
              else if (tree destination).isSome && !overwrite then
                .error Exc.preconditionFailed
              else
                .ok { source := source, destination := destination,
                      destinationExists := (tree destination).isSome }

/-- Outcome of httpMove: the HTTP response (or error) together with which
mutations were performed.  No event subscribers are registered, so the
beforeUnbind/beforeBind emissions never veto. -/
structure MoveOutcome where
  response : Except Exc Nat
  destinationDeleted : Bool
  sourceMoved : Bool
deriving Repr

/-- httpMove: on any error from getCopyAndMoveInfo the error handler runs
and no node is touched; otherwise an existing destination is deleted, the
tree moves the source, and the status is 204 (overwrite) or 201 (new). -/
def httpMove (baseUri : String) (req : CopyMoveReq)
    (tree : String → Option CopyMoveNode) : MoveOutcome :=
  match getCopyAndMoveInfo baseUri req tree with
  | .error e => { response := .error e, destinationDeleted := false, sourceMoved := false }
  | .ok info =>
    { response := .ok (if info.destinationExists then 204 else 201),
      destinationDeleted := info.destinationExists,
      sourceMoved := true }

/-! ### updateProperties (server.js lines 1817-1891)

The result object is initialised with JavaScript Array literals for the
buckets and the code then assigns only string-keyed (non-index)
properties to them.  Array.length counts only index properties, so these
buckets always report length 0.  The model keeps both parts of an Array
value to make that explicit. -/

/-- A JavaScript Array as used for the status buckets: values stored at
numeric indices and entries assigned under string keys. -/
structure JsArray where
  elems : List String
  named : List String
deriving DecidableEq, Repr

/-- JavaScript Array.length: counts only the numeric-index part. -/
def JsArray.lengthJs (a : JsArray) : Nat := a.elems.length

/-- Assign one more string-keyed entry (result[status][propertyName] = null). -/
def JsArray.addNamed (a : JsArray) (k : String) : JsArray :=
  { a with named := a.named ++ [k] }

/-- The empty Array literal. -/
def JsArray.emptyArr : JsArray := ⟨[], []⟩

/-- The shapes node.updateProperties may return (server.js lines 1856-1873):
true, false, or a detailed status-to-names object. -/
inductive NodeUpdateReply where
  | replyTrue
  | replyFalse
  | replyMap (m : List (String × JsArray))

/-- A node as far as updateProperties is concerned: whether it has the
IProperties feature, and what its own updateProperties returns.
Modelled from the spec: tree.getNodeForPath is called synchronously here
(line 1821) and is taken to yield this node. -/
structure PropNode where
  isProps : Bool
  reply : NodeUpdateReply

/-- What updateProperties returns, plus whether node.updateProperties was
invoked at all. -/
structure PropUpdateOutcome where
  buckets : List (String × JsArray)
  href : String
  calledNodeUpdate : Bool
deriving Repr

/-- Errors the JavaScript engine itself raises: the replyFalse branch
executes `foreach (...)`, a call to an undefined identifier. -/
inductive JsError where
  | referenceError
deriving DecidableEq, Repr

/-- Drop every bucket whose Array length is 0 (lines 1883-1888).  Entries
assigned under string keys never increase the length, so the three
initial buckets are always dropped; only a detailed reply map with real
index entries can survive. -/
def stripEmptyBuckets (bs : List (String × JsArray)) : List (String × JsArray) :=
  bs.filter (fun sb => sb.2.lengthJs != 0)

/-- updateProperties: 403 everything on a non-IProperties node; 403 each
protected name and leave the rest for the 424 sweep; otherwise consult
node.updateProperties.  Finally strip empty buckets and attach href. -/
def updateProperties (protectedProps : List String) (node : PropNode)
    (uri : String) (props : List String) : Except JsError PropUpdateOutcome :=
  if !node.isProps then
    -- every property is 403 Forbidden; remainingProperties becomes empty
    let r403 := props.foldl JsArray.addNamed JsArray.emptyArr
    Except.ok
      { buckets := stripEmptyBuckets
          [(("200"), JsArray.emptyArr), (("403"), r403), (("424"), JsArray.emptyArr)],
        href := uri, calledNodeUpdate := false }
  else
    let prot := props.filter (fun p => strIn p protectedProps)
    let remaining := props.filter (fun p => !strIn p protectedProps)
    if prot ≠ [] then
      -- hasError: the protected names go to 403, the remaining names are
      -- never attempted and fall into the 424 sweep
      let r403 := prot.foldl JsArray.addNamed JsArray.emptyArr
      let r424 := remaining.foldl JsArray.addNamed JsArray.emptyArr
      Except.ok
        { buckets := stripEmptyBuckets
            [(("200"), JsArray.emptyArr), (("403"), r403), (("424"), r424)],
          href := uri, calledNodeUpdate := false }
    else
      match node.reply with
      | .replyTrue =>
        let r200 := props.foldl JsArray.addNamed JsArray.emptyArr
        Except.ok
          { buckets := stripEmptyBuckets
              [(("200"), r200), (("403"), JsArray.emptyArr), (("424"), JsArray.emptyArr)],
            href := uri, calledNodeUpdate := true }
      | .replyFalse =>
        -- line 1864 reads `foreach (propertyName in properties)`: a call to
        -- the undefined identifier foreach, raising a ReferenceError
        Except.error JsError.referenceError
      | .replyMap m =>
        -- the detailed reply replaces the result object verbatim
        Except.ok
          { buckets := stripEmptyBuckets m, href := uri, calledNodeUpdate := true }

/-- The protected property list (server.js lines 215-241). -/
def protectedProperties : List String := [
  ("\x7bDAV:\x7dgetcontentlength"),
  ("\x7bDAV:\x7dgetetag"),
  ("\x7bDAV:\x7dgetlastmodified"),
  ("\x7bDAV:\x7dlockdiscovery"),
  ("\x7bDAV:\x7dresourcetype"),
  ("\x7bDAV:\x7dsupportedlock"),
  ("\x7bDAV:\x7dquota-available-bytes"),
  ("\x7bDAV:\x7dquota-used-bytes"),
  ("\x7bDAV:\x7dalternate-URI-set"),
  ("\x7bDAV:\x7dprincipal-URL"),
  ("\x7bDAV:\x7dgroup-membership"),
  ("\x7bDAV:\x7dsupported-privilege-set"),
  ("\x7bDAV:\x7dcurrent-user-privilege-set"),
  ("\x7bDAV:\x7dacl"),
  ("\x7bDAV:\x7dacl-restrictions"),
  ("\x7bDAV:\x7dinherited-acl-set"),
  ("\x7bDAV:\x7dprincipal-collection-set"),
  ("\x7bDAV:\x7dcurrent-user-principal")]

/-! ### checkPreconditions (server.js lines 1201-1362)

Headers are modelled with absent-or-empty values as none.  The two date
headers carry the value obtained from Date parsing; date parsing itself
is abstracted to that value since no claim depends on it.  The target
node is the tree content at the request URI (none when the tree raises
FileNotFound).  An etag of none models a node whose getETag() yields a
falsy value. -/

/-- How checkPreconditions ends: success, a 304 written with the
redirected flag, a failure passed to the callback, or a stall, where the
source neither invokes the callback nor continues the chain (the
If-None-Match branch does this when the freshly fetched node's ETag does
not match). -/
inductive PrecondOutcome where
  | passed
  | redirected304
  | failed (e : Exc)
  | stalled
deriving DecidableEq, Repr

/-- The conditional headers of a request. -/
structure PrecondHeaders where
  ifMatch : Option String
  ifNoneMatch : Option String
  ifModifiedSince : Option Int
  ifUnmodifiedSince : Option Int

/-- The node data checkPreconditions reads. -/
structure PrecondNode where
  etag : Option String
  lastModified : Option Int

/-- The finale closure of the If-Unmodified-Since branch (lines
1337-1350): a truthy last-modified beyond the header date fails with 412,
otherwise the preconditions pass.  (The source builds the exception
without `new`; the exception kind is modelled from the spec table.) -/
def precondFinale (n : PrecondNode) (date : Int) : PrecondOutcome :=
  match n.lastModified with
  | some lm => if lm > date then .failed Exc.preconditionFailed else .passed
  | none => .passed

/-- The If-Unmodified-Since step (lines 1320-1355), entered with the node
variable as left by the earlier steps; a missing node surfaces the tree's
NotFound error through the callback. -/
def precondUnmodified (h : PrecondHeaders) (tree : Option PrecondNode)
    (nodeVar : Option PrecondNode) : PrecondOutcome :=
  match h.ifUnmodifiedSince with
  | none => .passed
  | some date =>
    match nodeVar with
    | some n => precondFinale n date
    | none =>
      match tree with
      | none => .failed Exc.notFound
      | some n => precondFinale n date

/-- The continuation running after the If-None-Match evaluation (lines
1289-1356).  The If-Modified-Since branch at line 1290 is guarded by
`!ifNoneMatch`, and this continuation only runs when If-None-Match is
present, so that branch is unreachable here. -/
def precondAfterINM (h : PrecondHeaders) (tree : Option PrecondNode)
    (nodeVar : Option PrecondNode) : PrecondOutcome :=
  precondUnmodified h tree nodeVar

/-- The continuation after the If-Match step (lines 1248-1361).  With no
If-None-Match header the callback reports success immediately; with one,
the ETag is only compared when the node variable is still unset, i.e.
when no If-Match header already fetched the node. -/
def precondAfterIfMatch (handleAsGET : Bool) (h : PrecondHeaders)
    (tree : Option PrecondNode) (nodeVar : Option PrecondNode) : PrecondOutcome :=
  match h.ifNoneMatch with
  | none => .passed
  | some inm =>
    match nodeVar with
    | some _ => precondAfterINM h tree nodeVar
    | none =>
      match tree with
      | none => precondAfterINM h tree none
      | some n =>
        let inm2 : String := ⟨trimCharList '"' inm.data⟩
        if inm2 = ("*") ∨ (n.etag ≠ none ∧ n.etag = some inm2) then
          if handleAsGET then .redirected304
          else .failed Exc.preconditionFailed
        else
          -- neither cbprecond nor afterIfNoneMatch is invoked here
          .stalled

/-- checkPreconditions: evaluate If-Match first (missing node or ETag
mismatch fail with 412), then hand the fetched node to the If-None-Match
step. -/
def checkPreconditions (handleAsGET : Bool) (h : PrecondHeaders)
    (tree : Option PrecondNode) : PrecondOutcome :=
  match h.ifMatch with
  | none => precondAfterIfMatch handleAsGET h tree none
  | some im =>
    match tree with
    | none => .failed Exc.preconditionFailed
    | some n =>
      if im = ("*") then precondAfterIfMatch handleAsGET h tree (some n)
      else
        let im2 : String := ⟨trimCharList '"' im.data⟩
        if n.etag = some im2 then precondAfterIfMatch handleAsGET h tree (some n)
        else .failed Exc.preconditionFailed

/-! ### Byte-range GET (server.js lines 537-615 and 1688-1705)

The Range header values stay strings through the offset computations, so
the comparisons follow the JavaScript relational semantics: with two
string operands the comparison is lexicographic, otherwise numeric. -/

/-- A JavaScript value flowing through the range computation. -/
inductive JSVal where
  | strV (s : String)
  | numV (n : Int)
deriving DecidableEq, Repr

/-- Numeric value of a digit string. -/
def digitsToInt (cs : List Char) : Int :=
  cs.foldl (fun acc c => acc * 10 + Int.ofNat (c.toNat - 48)) 0

/-- JavaScript ToNumber, restricted to the digit strings produced by the
Range parser. -/
def JSVal.toNumber : JSVal → Int
  | .strV s => digitsToInt s.data
  | .numV n => n

/-- String form of a value under JavaScript string concatenation. -/
def JSVal.toStr : JSVal → String
  | .strV s => s
  | .numV n => toString n

/-- Lexicographic comparison of character lists by code point, the way
JavaScript compares two strings relationally. -/
def listLtChar : List Char → List Char → Bool
  | [], [] => false
  | [], _ :: _ => true
  | _ :: _, [] => false
  | a :: as, b :: bs =>
    if a < b then true
    else if b < a then false
    else listLtChar as bs

/-- JavaScript a < b: lexicographic when both operands are strings,
numeric otherwise. -/
def jsLt (a b : JSVal) : Bool :=
  match a, b with
  | .strV x, .strV y => listLtChar x.data y.data
  | _, _ => decide (a.toNumber < b.toNumber)

/-- JavaScript a > b. -/
def jsGt (a b : JSVal) : Bool := jsLt b a

/-- getHTTPRange (lines 1688-1705): match bytes=(digits)-(digits) with
both sides optional and case-insensitive; empty sides become null and a
fully empty range is no range at all. -/
def getHTTPRange (header : Option String) : Option (Option String × Option String) :=
  match header with
  | none => none
  | some r =>
    let cs := r.data.map Char.toLower
    if cs.take 6 = [ 'b', 'y', 't', 'e', 's', '=' ] then
      match splitFirstChar '-' (cs.drop 6) with
      | none => none
      | some (a, b) =>
        if a.all Char.isDigit ∧ b.all Char.isDigit then
          if a.isEmpty ∧ b.isEmpty then none
          else some ((if a.isEmpty then none else some ⟨a⟩),
                     (if b.isEmpty then none else some ⟨b⟩))
        else none
    else none

/-- Node Buffer.prototype.copy(target, targetStart, sourceStart): copy
source bytes from sourceStart into target starting at targetStart, at
most up to the end of either buffer. -/
def bufferCopy (source target : List Nat) (targetStart sourceStart : Nat) : List Nat :=
  let n := min (target.length - targetStart) (source.length - sourceStart)
  target.take targetStart ++ (source.drop sourceStart).take n ++ target.drop (targetStart + n)

/-- new Buffer(n) allocates n uninitialised bytes; the model fills them
with zeroes.  Nothing below depends on the fill value, only on the bytes
not coming from the file content. -/
def newBuffer (n : Nat) : List Nat := List.replicate n 0

/-- The byte-offset determination of httpGet (lines 571-598), operating
on the string-or-null pair from getHTTPRange. -/
def rangeToVals (nodeSize : Int) (r0 r1 : Option String) : Except Exc (JSVal × JSVal) :=
  match r0 with
  | some s0 =>
    let sV := JSVal.strV s0
    let eV := match r1 with
              | some s1 => JSVal.strV s1
              | none => JSVal.numV (nodeSize - 1)
    if jsGt sV (.numV nodeSize) then .error Exc.requestedRangeNotSatisfiable
    else if jsLt eV sV then .error Exc.requestedRangeNotSatisfiable
    else if jsGt eV (.numV nodeSize) then .ok (sV, .numV (nodeSize - 1))
    else .ok (sV, eV)
  | none =>
    let n1 := match r1 with
              | some s1 => digitsToInt s1.data
              | none => 0
    let st := nodeSize - n1
    let st := if st < 0 then 0 else st
    .ok (.numV st, .numV (nodeSize - 1))

/-- The response assembled by httpGet. -/
structure GetResponse where
  status : Nat
  contentLength : Option Int
  contentRange : Option String
  body : List Nat
deriving DecidableEq, Repr

/-- The range-serving tail of httpGet (lines 537-615) for an IFile node
whose headers supplied Content-Length = nodeSize.  The If-Range header is
absent, so the guard at line 543 skips the whole If-Range block and
ignoreRangeHeader stays false.  The sliced body is built with
body.copy(newStream, offlen, start): targetStart is offlen, the very
length of the fresh buffer, so no byte of the file content is copied. -/
def httpGetRange (content : List Nat) (nodeSize : Int)
    (rangeHeader : Option String) : Except Exc GetResponse :=
  match getHTTPRange rangeHeader with
  | none =>
    .ok { status := 200,
          contentLength := if nodeSize ≠ 0 then some nodeSize else none,
          contentRange := none, body := content }
  | some (r0, r1) =>
    if nodeSize = 0 then
      -- a falsy size disables range support (line 570)
      .ok { status := 200, contentLength := none, contentRange := none, body := content }
    else
      match rangeToVals nodeSize r0 r1 with
      | .error e => .error e
      | .ok (sV, eV) =>
        let offlen : Int := eV.toNumber - sV.toNumber + 1
        let stream := newBuffer offlen.toNat
        let outBody := bufferCopy content stream offlen.toNat sV.toNumber.toNat
        .ok { status := 206,
              contentLength := some offlen,
              contentRange := some (("bytes ") ++ sV.toStr ++ ("-") ++ eV.toStr
                ++ ("/") ++ toString nodeSize),
              body := outBody }

/-! ### Depth handling (server.js lines 1718-1733 and 724-727) -/

/-- The DEPTH_INFINITY sentinel (line 74). -/
def DEPTH_INFINITY : Int := -1

/-- getHTTPDepth: a falsy default becomes DEPTH_INFINITY; a missing
header yields the default; the literal header "infinity" yields the
sentinel; any other header value also yields the default, because node
header values are strings and `typeof depth != "number"` is then always
true — the final parseInt line is unreachable. -/
def getHTTPDepth (fallback : Int) (depthHeader : Option String) : Int :=
  let fb := if fallback = 0 then DEPTH_INFINITY else fallback
  match depthHeader with
  | none => fb
  | some s => if s = ("infinity") then DEPTH_INFINITY else fb

/-- The depth httpPropfind works with (lines 724-727): getHTTPDepth with
default 1, then everything that is not 0 is clamped to 1. -/
def effectivePropfindDepth (depthHeader : Option String) : Int :=
  let d := getHTTPDepth 1 depthHeader
  if d ≠ 0 then 1 else d

/-! ### getPropertiesForPath (server.js lines 1466-1670)

Per node, the inner property loop mutates one newProperties object; the
afterGetProperty continuation runs after each property that actually
resolves, recomputing the href from the current 200 bucket (a trailing
slash when a resourcetype with a non-null value is present), deleting an
auto-added resourcetype, and re-registering the entry.  The model folds
that loop with explicit state.

Two JavaScript details are kept: the target node sits under the literal
object key "path" (line 1480, `var nodes = { path : parentNode }`, an
identifier property key; getProperties at line 1448 reads
result["path"]), and the propertyNames variable is shared across nodes,
so a resourcetype pushed for one node stays pushed for the next. -/

/-- The {DAV:}collection value in Clark form. -/
def clkCollection : String := ("\x7bDAV:\x7dcollection")

/-- Clark names resolved by the built-in providers. -/
def rtName : String := ("\x7bDAV:\x7dresourcetype")

def lmName : String := ("\x7bDAV:\x7dgetlastmodified")

def clName : String := ("\x7bDAV:\x7dgetcontentlength")

def quName : String := ("\x7bDAV:\x7dquota-used-bytes")

def qaName : String := ("\x7bDAV:\x7dquota-available-bytes")

def etName : String := ("\x7bDAV:\x7dgetetag")

def ctName : String := ("\x7bDAV:\x7dgetcontenttype")

def srsName : String := ("\x7bDAV:\x7dsupported-report-set")

/-- The default name set used for an allprop request (lines 1544-1552). -/
def defaultPropNames : List String := [lmName, clName, rtName, quName, qaName, etName, ctName]

/-- Property values stored in the 200 bucket. -/
inductive PropVal where
  | lastModifiedV (t : Int)
  | contentLengthV (n : Int)
  | resourceTypeV (v : Option String)
  | etagVal (s : String)
  | contentTypeVal (s : String)
  | quotaUsedV (n : Int)
  | quotaAvailV (n : Int)
  | supportedReportSetV
  | declaredV (s : String)
deriving DecidableEq, Repr

/-- getValue() as the href decision calls it: the resourcetype property
(property/resourceType.js lines 63-65) returns its stored value, null for
a file and the collection Clark name for a directory; every other
property object used here is non-null. -/
def PropVal.getValue : PropVal → Option String
  | .resourceTypeV v => v
  | _ => some ("")

/-- Object-style get on an association list (first match). -/
def objGetA {α : Type} : List (String × α) → String → Option α
  | [], _ => none
  | kv :: rest, k => if kv.1 = k then some kv.2 else objGetA rest k

/-- Object-style set: update the existing key in place or append. -/
def objSetA {α : Type} : List (String × α) → String → α → List (String × α)
  | [], k, v => [(k, v)]
  | kv :: rest, k, v => if kv.1 = k then (k, v) :: rest else kv :: objSetA rest k v

/-- Object-style delete. -/
def objDelA {α : Type} : List (String × α) → String → List (String × α)
  | [], _ => []
  | kv :: rest, k => if kv.1 = k then objDelA rest k else kv :: objDelA rest k

/-- A tree node as getPropertiesForPath consumes it.  getProps models the
IProperties getProperties(propertyNames) call; the capability flags model
hasFeature. -/
structure PFNode where
  path : String
  isFile : Bool
  isCollection : Bool
  isProps : Bool
  isQuota : Bool
  getProps : List String → List (String × PropVal)
  lastMod : Int
  size : Int
  etag : Option String
  contentType : Option String
  quotaUsed : Int
  quotaAvail : Int

/-- State of the per-node property loop: the 200 bucket, the href of the
entry object, and whether afterGetProperty has registered the entry at
least once.  (The 404 bucket is never populated by this code and is
omitted.) -/
structure NodeState where
  b200 : List (String × PropVal)
  href : Option String
  written : Bool

/-- Whether the current 200 bucket holds a resourcetype whose value is
non-null (the trailing-slash test of lines 1518-1520). -/
def rtIndicatesCollection (b : List (String × PropVal)) : Bool :=
  match objGetA b rtName with
  | some v => v.getValue != none
  | none => false

/-- afterGetProperty (lines 1504-1529): recompute the href, append the
trailing slash for a non-empty path with collection resourcetype, and
delete an auto-added resourcetype. -/
def afterGetProp (rpath : String) (removeRT : Bool) (st : NodeState) : NodeState :=
  let href := if rpath != ("") && rtIndicatesCollection st.b200 then rpath ++ ("/") else rpath
  { b200 := if removeRT then objDelA st.b200 rtName else st.b200,
    href := some href, written := true }

/-- How the built-in providers (lines 1581-1657) treat one property name:
none skips without running afterGetProperty; some none runs
afterGetProperty without storing a value (a file whose getETag or
getContentType is falsy); some (some v) stores v and runs
afterGetProperty. -/
def resolveAction (node : PFNode) (prop : String) : Option (Option PropVal) :=
  if prop = lmName then some (some (.lastModifiedV node.lastMod))
  else if prop = clName then
    (if node.isFile then some (some (.contentLengthV node.size)) else none)
  else if prop = rtName then
    some (some (.resourceTypeV (if node.isCollection then some clkCollection else none)))
  else if prop = quName then
    (if node.isQuota then some (some (.quotaUsedV node.quotaUsed)) else none)
  else if prop = qaName then
    (if node.isQuota then some (some (.quotaAvailV node.quotaAvail)) else none)
  else if prop = etName then
    (if node.isFile then some (node.etag.map PropVal.etagVal) else none)
  else if prop = ctName then
    (if node.isFile then some (node.contentType.map PropVal.contentTypeVal) else none)
  else if prop = srsName then some (some .supportedReportSetV)
  else none

/-- One step of the inner property loop: a property already present in
the 200 bucket is skipped; otherwise the provider action runs. -/
def propStep (node : PFNode) (rpath : String) (removeRT : Bool)
    (st : NodeState) (prop : String) : NodeState :=
  if (objGetA st.b200 prop).isSome then st
  else
    match resolveAction node prop with
    | none => st
    | some (some v) =>
      afterGetProp rpath removeRT { st with b200 := objSetA st.b200 prop v }
    | some none => afterGetProp rpath removeRT st

/-- One entry of the multi-status result: its 200 bucket and href. -/
structure MSEntry where
  b200 : List (String × PropVal)
  href : String
deriving DecidableEq, Repr

/-- The state left by the inner property loop of one node. -/
def nodeFin (node : PFNode) (rpath : String) (removeRT : Bool)
    (b0 : List (String × PropVal)) (names : List String) : NodeState :=
  names.foldl (propStep node rpath removeRT) { b200 := b0, href := none, written := false }

/-- Process one node (the body of the outer Async loop, lines 1532-1661):
prefill the 200 bucket for IProperties nodes, rebuild the shared
propertyNames for allprop, push an absent resourcetype marked for
removal, then fold the property loop.  Returns the propertyNames list as
left for the next node and the entry, absent when afterGetProperty never
ran. -/
def processNode (node : PFNode) (myPath : String) (allProps : Bool)
    (namesIn : List String) : List String × Option MSEntry :=
  let b0 := if node.isProps then node.getProps namesIn else []
  let names1 := if allProps then makeUnique (defaultPropNames ++ b0.map Prod.fst) else namesIn
  let removeRT := !strIn rtName names1
  let names2 := if strIn rtName names1 then names1 else names1 ++ [rtName]
  let fin := nodeFin node (trimSlashes myPath) removeRT b0 names2
  (names2, if fin.written then some { b200 := fin.b200, href := fin.href.getD ("") } else none)

/-- The nodes object (lines 1480-1495): the target under the literal key
"path", then each child keyed by its path property when depth is 1 and
the target is a collection. -/
def nodesFor (parent : PFNode) (children : List PFNode) (depth : Int) :
    List (String × PFNode) :=
  if depth = 1 ∧ parent.isCollection = true then
    children.foldl (fun acc c => objSetA acc c.path c) [(("path"), parent)]
  else [(("path"), parent)]

/-- One step of the outer node loop, threading the shared propertyNames
list and the returnPropertyList object. -/
def pfpStep (allProps : Bool) (acc : List String × List (String × MSEntry))
    (kn : String × PFNode) : List String × List (String × MSEntry) :=
  let r := processNode kn.2 kn.1 allProps acc.1
  (r.1,
   match r.2 with
   | some e => objSetA acc.2 (trimSlashes kn.1) e
   | none => acc.2)

/-- getPropertiesForPath: clamp the depth (lines 1470-1471), gather the
nodes, and run the property loop over each, keyed by trimmed path. -/
def getPropertiesForPath (parent : PFNode) (children : List PFNode)
    (requested : List String) (depthIn : Int) : List (String × MSEntry) :=
  let depth : Int := if depthIn = 0 then 0 else 1
  ((nodesFor parent children depth).foldl (pfpStep requested.isEmpty) (requested, [])).2

/-- The resourcetype value the built-in provider stores for a node
(lines 1598-1603 with property/resourceType.js lines 13-19): null for a
file, the collection Clark name for a collection. -/
def rtDerived (node : PFNode) : PropVal :=
  .resourceTypeV (if node.isCollection then some clkCollection else none)

/-- The href afterGetProperty settles on once the resourcetype for the
node is in the 200 bucket: the trimmed path, plus a trailing slash for a
collection at a non-empty trimmed path. -/
def expectedHref (node : PFNode) (rp : String) : String :=
  if rp != ("") && node.isCollection then rp ++ ("/") else rp

/-! ### Principal collections
(DAVACL/abstractPrincipalCollection.js lines 94-133) -/

/-- Principal information as supplied by the backend; guaranteed to carry
at least a uri. -/
structure PrincipalInfo where
  uri : String
deriving DecidableEq, Repr

/-- The principal backend interface consumed here (external collaborator;
modelled by its two lookup operations). -/
structure PrincipalBackend where
  principalsByPfx : String → Except Exc (List PrincipalInfo)
  principalByPath : String → Option PrincipalInfo

/-- How getChildren ends.  The Async each body never calls its
continuation after a successful getChildForPrincipal, so a non-empty
principal list leaves the callback chain hanging. -/
inductive ChildrenOutcome where
  | failed (e : Exc)
  | emptyOk
  | stalled
deriving DecidableEq, Repr

/-- An abstract principal collection: the listing switch, the principal
path root, the backend, and the subclass hook getChildForPrincipal
(its concrete child value is opaque here). -/
structure PrincipalCollection where
  disableListing : Bool
  principalPfx : String
  backend : PrincipalBackend
  childFor : PrincipalInfo → String

/-- getChildren (lines 94-116): with listing disabled, fail immediately
with MethodNotAllowed; otherwise list principals by the collection root. -/
def getChildren (c : PrincipalCollection) : ChildrenOutcome :=
  if c.disableListing then .failed Exc.methodNotAllowed
  else
    match c.backend.principalsByPfx c.principalPfx with
    | .error e => .failed e
    | .ok [] => .emptyOk
    | .ok (_ :: _) => .stalled

/-- getChild (lines 126-133): always consult the backend under
root/name, regardless of disableListing; a missing principal is
NotFound. -/
def getChild (c : PrincipalCollection) (name : String) : Except Exc String :=
  match c.backend.principalByPath (c.principalPfx ++ ("/") ++ name) with
  | none => Except.error Exc.notFound
  | some info => Except.ok (c.childFor info)

/-! ### The href property (src/unnamed/part_000)

The source field autoPrefix is rendered here as autoPfx. -/

/-- A DOM element as this property class reads it. -/
structure XmlElem where
  clarkName : String
  textContent : String
deriving DecidableEq, Repr

/-- The DOM the unserializer receives; only its first child is consulted. -/
structure XmlDom where
  firstChild : XmlElem
deriving DecidableEq, Repr

/-- jsDAV_Property_Href: the href text and the auto-prefix flag (the
constructor defaults the flag to true when no boolean is passed). -/
structure HrefProp where
  href : String
  autoPfx : Bool
deriving DecidableEq, Repr

/-- The server data the serializer consults. -/
structure HrefServer where
  baseUri : String
  davNsPfx : String

/-- The Clark name of the DAV href element. -/
def hrefClark : String := ("\x7bDAV:\x7dhref")

/-- serialize (part_000 lines 42-46): append an href element, prepending
the server base URI exactly when the auto-prefix flag is set. -/
def serializeHref (p : HrefProp) (server : HrefServer) (dom : String) : String :=
  dom ++ ("<") ++ server.davNsPfx ++ (":href>")
      ++ (if p.autoPfx then server.baseUri else ("")) ++ p.href
      ++ ("</") ++ server.davNsPfx ++ (":href>")

/-- unserialize (part_000 lines 57-61): only a first child named
{DAV:}href yields a property, built from its text with the auto-prefix
flag off; anything else yields nothing. -/
def unserializeHref (dom : XmlDom) : Option HrefProp :=
  if dom.firstChild.clarkName = hrefClark then
    some { href := dom.firstChild.textContent, autoPfx := false }
  else none

/-! ### Concrete sample data used by the claim theorems -/

/-- A plain file child node. -/
def c4child : PFNode :=
  { path := ("kid.txt"), isFile := true, isCollection := false, isProps := false,
    isQuota := false, getProps := fun _ => [], lastMod := 3, size := 2, etag := none,
    contentType := none, quotaUsed := 0, quotaAvail := 0 }

/-- The root collection node for the depth scenario. -/
def c4root : PFNode :=
  { path := (""), isFile := false, isCollection := true, isProps := false,
    isQuota := false, getProps := fun _ => [], lastMod := 3, size := 0, etag := none,
    contentType := none, quotaUsed := 0, quotaAvail := 0 }

/-- A file child for the href scenario. -/
def c6file : PFNode :=
  { path := ("file.txt"), isFile := true, isCollection := false, isProps := false,
    isQuota := false, getProps := fun _ => [], lastMod := 11, size := 4, etag := none,
    contentType := none, quotaUsed := 0, quotaAvail := 0 }

/-- A collection child for the href scenario. -/
def c6dir : PFNode :=
  { path := ("sub"), isFile := false, isCollection := true, isProps := false,
    isQuota := false, getProps := fun _ => [], lastMod := 11, size := 0, etag := none,
    contentType := none, quotaUsed := 0, quotaAvail := 0 }

/-- The root collection for the href scenario. -/
def c6root : PFNode :=
  { path := (""), isFile := false, isCollection := true, isProps := false,
    isQuota := false, getProps := fun _ => [], lastMod := 11, size := 0, etag := none,
    contentType := none, quotaUsed := 0, quotaAvail := 0 }

/-- The multi-status entry the href scenario produces for the root. -/
def c6rootEntry : MSEntry :=
  { b200 := [(lmName, PropVal.lastModifiedV 11),
             (rtName, PropVal.resourceTypeV (some clkCollection))],
    href := ("path/") }

/-! ## Supporting lemmas -/

theorem strAppendData (a b : String) : (a ++ b).data = a.data ++ b.data := rfl

theorem isPrefixOf_rfl (l : List Char) : l.isPrefixOf l = true := by
  rw [List.isPrefixOf_iff_prefix]

theorem isPrefixOf_extend {p l : List Char} (t : List Char)
    (h : p.isPrefixOf l = true) : p.isPrefixOf (l ++ t) = true := by
  rw [List.isPrefixOf_iff_prefix] at h ⊢
  exact h.trans (l.prefix_append t)

theorem isPrefixOf_append_self (l t : List Char) : l.isPrefixOf (l ++ t) = true :=
  isPrefixOf_extend t (isPrefixOf_rfl l)

theorem isPrefixOf_concat_self_false (l : List Char) (a : Char) :
    (l ++ [a]).isPrefixOf l = false := by
  rw [← Bool.not_eq_true, List.isPrefixOf_iff_prefix]
  intro hp
  have h2 := hp.length_le
  simp at h2

theorem replaceFirstL_no_occ (pat rep l : List Char)
    (h : hasSubL pat l = false) : replaceFirstL pat rep l = l := by
  induction l with
  | nil => rfl
  | cons c cs ih =>
    rw [hasSubL, Bool.or_eq_false_iff] at h
    simp [replaceFirstL, h.1, ih h.2]

theorem hasSubL_nil_pat (l : List Char) : hasSubL [] l = true := by
  cases l <;> simp [hasSubL, List.isPrefixOf, List.isEmpty]

theorem hasSubL_append (pat l t : List Char) (h : hasSubL pat l = true) :
    hasSubL pat (l ++ t) = true := by
  induction l with
  | nil =>
    have hp : pat = [] := by
      cases pat with
      | nil => rfl
      | cons p ps => simp [hasSubL, List.isEmpty] at h
    subst hp
    simpa using hasSubL_nil_pat t
  | cons c cs ih =>
    rw [hasSubL, Bool.or_eq_true] at h
    rcases h with h | h
    · rw [List.cons_append, hasSubL]
      have := isPrefixOf_extend t h
      rw [List.cons_append] at this
      simp [this]
    · rw [List.cons_append, hasSubL]
      simp [ih h]

theorem hasDblSlash_of_concat {c : String}
    (h : hasDblSlash (c ++ ("/")) = false) : hasDblSlash c = false := by
  by_cases hc : hasDblSlash c = true
  · unfold hasDblSlash at hc h
    rw [strAppendData] at h
    rw [hasSubL_append _ _ _ hc] at h
    cases h
  · simpa using hc

theorem unescList_cons_ne (c : Char) (cs : List Char) (hc : ¬ c = '%') :
    unescList (c :: cs) = c :: unescList cs := by
  rw [unescList.eq_def]
  simp [hc]

theorem unescList_no_pct (l : List Char) (h : ∀ c ∈ l, c ≠ '%') :
    unescList l = l := by
  induction l with
  | nil => rfl
  | cons c cs ih =>
    have hc : c ≠ '%' := h c (List.mem_cons_self c cs)
    rw [unescList_cons_ne c cs hc, ih (fun x hx => h x (List.mem_cons_of_mem c hx))]

theorem head?_dropWhile_not (p : Char → Bool) (l : List Char) (a : Char)
    (h : (l.dropWhile p).head? = some a) : p a = false := by
  induction l with
  | nil => simp [List.dropWhile] at h
  | cons c cs ih =>
    cases hc : p c with
    | true =>
      simp [List.dropWhile_cons, hc] at h
      exact ih h
    | false =>
      simp [List.dropWhile_cons, hc] at h
      exact h ▸ hc

theorem dropWhile_head_false (p : Char → Bool) (l : List Char)
    (h : ∀ a, l.head? = some a → p a = false) : l.dropWhile p = l := by
  cases l with
  | nil => rfl
  | cons c cs =>
    have := h c rfl
    simp [List.dropWhile_cons, this]

theorem getLast?_dropWhile (p : Char → Bool) (l : List Char)
    (h : l.dropWhile p ≠ []) : (l.dropWhile p).getLast? = l.getLast? := by
  induction l with
  | nil => simp at h
  | cons c cs ih =>
    cases hc : p c with
    | false => simp [List.dropWhile_cons, hc]
    | true =>
      have h2 : cs.dropWhile p ≠ [] := by
        simpa [List.dropWhile_cons, hc] using h
      have h3 : cs ≠ [] := by
        intro he
        subst he
        simp [List.dropWhile] at h2
      rw [show (c :: cs).dropWhile p = cs.dropWhile p by simp [List.dropWhile_cons, hc],
          ih h2]
      cases cs with
      | nil => cases h3 rfl
      | cons d ds => rw [List.getLast?_cons_cons]

theorem trimCharList_getLast (ch : Char) (l : List Char) (a : Char)
    (h : (trimCharList ch l).getLast? = some a) : ¬ a = ch := by
  unfold trimCharList at h
  rw [List.getLast?_reverse] at h
  have h2 := head?_dropWhile_not (fun c => c = ch) _ _ h
  simpa using h2

theorem trimCharList_head (ch : Char) (l : List Char) (a : Char)
    (h : (trimCharList ch l).head? = some a) : ¬ a = ch := by
  unfold trimCharList at h
  rw [List.head?_reverse] at h
  have hne : ((l.dropWhile (fun c => c = ch)).reverse.dropWhile (fun c => c = ch)) ≠ [] := by
    intro he
    rw [he] at h
    simp at h
  rw [getLast?_dropWhile _ _ hne, List.getLast?_reverse] at h
  have h2 := head?_dropWhile_not (fun c => c = ch) _ _ h
  simpa using h2

theorem trimCharList_eq_of_clean (ch : Char) (t : List Char)
    (hh : ∀ a, t.head? = some a → ¬ a = ch)
    (hl : ∀ a, t.getLast? = some a → ¬ a = ch) :
    trimCharList ch t = t := by
  unfold trimCharList
  have h1 : t.dropWhile (fun c => (c = ch : Bool)) = t := by
    apply dropWhile_head_false
    intro a ha
    simpa using hh a ha
  rw [h1]
  have h2 : t.reverse.dropWhile (fun c => (c = ch : Bool)) = t.reverse := by
    apply dropWhile_head_false
    intro a ha
    rw [List.head?_reverse] at ha
    simpa using hl a ha
  rw [h2, List.reverse_reverse]

theorem trimCharList_idem (ch : Char) (l : List Char) :
    trimCharList ch (trimCharList ch l) = trimCharList ch l :=
  trimCharList_eq_of_clean ch _ (trimCharList_head ch l) (trimCharList_getLast ch l)

theorem schemeStrip_id {u : String}
    (h : hasSubL [ ':', '/', '/' ] u.data = false) : schemeStrip u = u := by
  unfold schemeStrip
  rw [if_neg]
  simp [h]

theorem calculateUri_ok_trim {b x r : String} (h : calculateUri b x = Except.ok r) :
    trimCharList '/' r.data = r.data := by
  simp only [calculateUri] at h
  split at h
  · rw [Except.ok.injEq] at h
    rw [← h]
    exact trimCharList_idem '/' _
  · split at h
    · rw [Except.ok.injEq] at h
      rw [← h]
      rfl
    · cases h

theorem strIn_false_forall {s : String} {l : List String} (h : strIn s l = false) :
    ∀ p ∈ l, p ≠ s := by
  induction l with
  | nil => intro p hp; cases hp
  | cons x xs ih =>
    intro p hp
    rw [strIn] at h
    by_cases hx : x = s
    · rw [if_pos hx] at h; cases h
    · rw [if_neg hx] at h
      rcases List.mem_cons.mp hp with rfl | hp2
      · exact hx
      · exact ih h p hp2

theorem strIn_true_split {s : String} {l : List String} (h : strIn s l = true) :
    ∃ A B, l = A ++ s :: B ∧ strIn s A = false := by
  induction l with
  | nil => cases h
  | cons x xs ih =>
    by_cases hx : x = s
    · exact ⟨[], xs, by rw [hx]; rfl, rfl⟩
    · rw [strIn, if_neg hx] at h
      rcases ih h with ⟨A, B, hl, hA⟩
      refine ⟨x :: A, B, by rw [hl]; rfl, ?_⟩
      rw [strIn, if_neg hx]
      exact hA

theorem objGetA_objSetA_self {α : Type} (l : List (String × α)) (k : String) (v : α) :
    objGetA (objSetA l k v) k = some v := by
  induction l with
  | nil => simp [objSetA, objGetA]
  | cons kv rest ih =>
    by_cases h : kv.1 = k
    · simp [objSetA, h, objGetA]
    · simp [objSetA, h, objGetA, ih]

theorem objGetA_objSetA_ne {α : Type} (l : List (String × α)) (k k2 : String) (v : α)
    (h : k2 ≠ k) : objGetA (objSetA l k v) k2 = objGetA l k2 := by
  induction l with
  | nil => simp [objSetA, objGetA, Ne.symm h]
  | cons kv rest ih =>
    by_cases hk : kv.1 = k
    · simp [objSetA, hk, objGetA, Ne.symm h]
    · simp [objSetA, hk, objGetA, ih]

theorem objGetA_objDelA {α : Type} (l : List (String × α)) (k : String) :
    objGetA (objDelA l k) k = none := by
  induction l with
  | nil => rfl
  | cons kv rest ih =>
    by_cases h : kv.1 = k
    · simp [objDelA, h, ih]
    · simp [objDelA, h, objGetA, ih]

theorem mem_objSetA {α : Type} {l : List (String × α)} {k : String} {v : α}
    {x : String × α} (h : x ∈ objSetA l k v) : x ∈ l ∨ x = (k, v) := by
  induction l with
  | nil =>
    simp [objSetA] at h
    right
    exact h
  | cons kv rest ih =>
    by_cases hk : kv.1 = k
    · rw [objSetA, if_pos hk] at h
      rcases List.mem_cons.mp h with h | h
      · right; exact h
      · left; exact List.mem_cons_of_mem _ h
    · rw [objSetA, if_neg hk] at h
      rcases List.mem_cons.mp h with h | h
      · left; rw [h]; exact List.mem_cons_self _ _
      · rcases ih h with h2 | h2
        · left; exact List.mem_cons_of_mem _ h2
        · right; exact h2

theorem rtIndicates_of_derived (node : PFNode) (b : List (String × PropVal))
    (h : objGetA b rtName = some (rtDerived node)) :
    rtIndicatesCollection b = node.isCollection := by
  unfold rtIndicatesCollection
  rw [h]
  unfold rtDerived
  cases hc : node.isCollection <;> simp [PropVal.getValue, hc]

theorem afterGet_derived (node : PFNode) (rp : String) (rRT : Bool) (st : NodeState)
    (h : objGetA st.b200 rtName = some (rtDerived node)) :
    afterGetProp rp rRT st =
      { b200 := if rRT then objDelA st.b200 rtName else st.b200,
        href := some (expectedHref node rp), written := true } := by
  unfold afterGetProp expectedHref
  rw [rtIndicates_of_derived node st.b200 h]

theorem resolveAction_rt (node : PFNode) :
    resolveAction node rtName = some (some (rtDerived node)) := by
  unfold resolveAction rtDerived
  rw [if_neg (by decide), if_neg (by decide), if_pos rfl]

theorem propStep_no_rt (node : PFNode) (rp : String) (rRT : Bool) (st : NodeState)
    (prop : String) (hne : prop ≠ rtName)
    (h : objGetA st.b200 rtName = none) :
    objGetA (propStep node rp rRT st prop).b200 rtName = none := by
  unfold propStep
  split
  · exact h
  · split
    · exact h
    · rename_i v heq
      unfold afterGetProp
      cases rRT with
      | true => simp only [if_true]; exact objGetA_objDelA _ rtName
      | false =>
        simp only [Bool.false_eq_true, if_false]
        rw [objGetA_objSetA_ne st.b200 prop rtName v (Ne.symm hne)]
        exact h
    · unfold afterGetProp
      cases rRT with
      | true => simp only [if_true]; exact objGetA_objDelA _ rtName
      | false => simp only [Bool.false_eq_true, if_false]; exact h

theorem propStep_rt (node : PFNode) (rp : String) (rRT : Bool) (st : NodeState)
    (h : objGetA st.b200 rtName = none) :
    propStep node rp rRT st rtName =
      { b200 := if rRT then objDelA (objSetA st.b200 rtName (rtDerived node)) rtName
                else objSetA st.b200 rtName (rtDerived node),
        href := some (expectedHref node rp), written := true } := by
  unfold propStep
  rw [h]
  rw [if_neg (by simp)]
  rw [resolveAction_rt]
  exact afterGet_derived node rp rRT _ (objGetA_objSetA_self st.b200 rtName (rtDerived node))

theorem propStep_keep_derived (node : PFNode) (rp : String) (st : NodeState) (prop : String)
    (h1 : objGetA st.b200 rtName = some (rtDerived node))
    (h2 : st.href = some (expectedHref node rp))
    (h3 : st.written = true) :
    objGetA (propStep node rp false st prop).b200 rtName = some (rtDerived node)
    ∧ (propStep node rp false st prop).href = some (expectedHref node rp)
    ∧ (propStep node rp false st prop).written = true := by
  unfold propStep
  split
  · exact ⟨h1, h2, h3⟩
  · rename_i hcond
    have hp : prop ≠ rtName := by
      intro he
      rw [he, h1] at hcond
      exact hcond rfl
    split
    · exact ⟨h1, h2, h3⟩
    · rename_i v heq
      have hb : objGetA (objSetA st.b200 prop v) rtName = some (rtDerived node) := by
        rw [objGetA_objSetA_ne st.b200 prop rtName v (Ne.symm hp)]
        exact h1
      rw [afterGet_derived node rp false _ hb]
      exact ⟨hb, rfl, rfl⟩
    · rw [afterGet_derived node rp false _ h1]
      exact ⟨h1, rfl, rfl⟩

theorem foldSteps_no_rt (node : PFNode) (rp : String) (rRT : Bool) (names : List String)
    (st : NodeState) (hnames : ∀ p ∈ names, p ≠ rtName)
    (h : objGetA st.b200 rtName = none) :
    objGetA (names.foldl (propStep node rp rRT) st).b200 rtName = none := by
  induction names generalizing st with
  | nil => exact h
  | cons p ps ih =>
    rw [List.foldl_cons]
    exact ih _ (fun q hq => hnames q (List.mem_cons_of_mem p hq))
      (propStep_no_rt node rp rRT st p (hnames p (List.mem_cons_self p ps)) h)

theorem foldSteps_keep_derived (node : PFNode) (rp : String) (names : List String)
    (st : NodeState)
    (h1 : objGetA st.b200 rtName = some (rtDerived node))
    (h2 : st.href = some (expectedHref node rp))
    (h3 : st.written = true) :
    objGetA ((names.foldl (propStep node rp false) st)).b200 rtName = some (rtDerived node)
    ∧ (names.foldl (propStep node rp false) st).href = some (expectedHref node rp)
    ∧ (names.foldl (propStep node rp false) st).written = true := by
  induction names generalizing st with
  | nil => exact ⟨h1, h2, h3⟩
  | cons p ps ih =>
    rw [List.foldl_cons]
    obtain ⟨a, b, c⟩ := propStep_keep_derived node rp st p h1 h2 h3
    exact ih _ a b c

theorem nodeFin_href_notin (node : PFNode) (rp : String)
    (b0 : List (String × PropVal)) (names1 : List String)
    (hb0rt : objGetA b0 rtName = none) (hsf : strIn rtName names1 = false) :
    (nodeFin node rp true b0 (names1 ++ [rtName])).written = true
    ∧ (nodeFin node rp true b0 (names1 ++ [rtName])).href
        = some (expectedHref node rp) := by
  unfold nodeFin
  rw [List.foldl_append, List.foldl_cons, List.foldl_nil]
  have h1 : objGetA ((names1.foldl (propStep node rp true)
      { b200 := b0, href := none, written := false })).b200 rtName = none :=
    foldSteps_no_rt node rp true names1 _ (strIn_false_forall hsf) hb0rt
  rw [propStep_rt node rp true _ h1]
  exact ⟨rfl, rfl⟩

theorem nodeFin_href_in (node : PFNode) (rp : String)
    (b0 : List (String × PropVal)) (names1 : List String)
    (hb0rt : objGetA b0 rtName = none) (hsrt : strIn rtName names1 = true) :
    (nodeFin node rp false b0 names1).written = true
    ∧ (nodeFin node rp false b0 names1).href = some (expectedHref node rp) := by
  unfold nodeFin
  obtain ⟨A, B, hl, hA⟩ := strIn_true_split hsrt
  rw [hl, List.foldl_append, List.foldl_cons]
  have h1 : objGetA ((A.foldl (propStep node rp false)
      { b200 := b0, href := none, written := false })).b200 rtName = none :=
    foldSteps_no_rt node rp false A _ (strIn_false_forall hA) hb0rt
  rw [propStep_rt node rp false _ h1]
  obtain ⟨a, b, c⟩ := foldSteps_keep_derived node rp B
    { b200 := objSetA _ rtName (rtDerived node),
      href := some (expectedHref node rp), written := true }
    (objGetA_objSetA_self _ rtName (rtDerived node)) rfl rfl
  exact ⟨c, b⟩

theorem processNode_some_href (node : PFNode) (myPath : String) (allProps : Bool)
    (namesIn : List String) (e : MSEntry)
    (hrt : ∀ nm, objGetA (node.getProps nm) rtName = none)
    (he : (processNode node myPath allProps namesIn).2 = some e) :
    e.href = expectedHref node (trimSlashes myPath) := by
  simp only [processNode] at he
  generalize hb : (if node.isProps then node.getProps namesIn else []) = b0 at he
  have hb0rt : objGetA b0 rtName = none := by
    rw [← hb]
    by_cases hip : node.isProps
    · simp only [hip, if_true]; exact hrt namesIn
    · simp only [hip, Bool.false_eq_true, if_false]; rfl
  generalize hn : (if allProps then makeUnique (defaultPropNames ++ b0.map Prod.fst)
      else namesIn) = names1 at he
  by_cases hsrt : strIn rtName names1 = true
  · simp only [hsrt, Bool.not_true, if_true] at he
    obtain ⟨hw, hh⟩ := nodeFin_href_in node (trimSlashes myPath) b0 names1 hb0rt hsrt
    rw [hw, if_pos rfl] at he
    rw [Option.some.injEq] at he
    rw [← he, hh]
    rfl
  · have hsf : strIn rtName names1 = false := by
      cases hx : strIn rtName names1
      · rfl
      · exact absurd hx hsrt
    simp only [hsf, Bool.not_false, Bool.false_eq_true, if_false] at he
    obtain ⟨hw, hh⟩ := nodeFin_href_notin node (trimSlashes myPath) b0 names1 hb0rt hsf
    rw [hw, if_pos rfl] at he
    rw [Option.some.injEq] at he
    rw [← he, hh]
    rfl

theorem nodesFold_mem (children : List PFNode) :
    ∀ (base : List (String × PFNode)) (x : String × PFNode),
      x ∈ children.foldl (fun acc c => objSetA acc c.path c) base →
      x ∈ base ∨ ∃ c ∈ children, x = (c.path, c) := by
  induction children with
  | nil => intro base x h; exact Or.inl h
  | cons c cs ih =>
    intro base x h
    rw [List.foldl_cons] at h
    rcases ih _ x h with h2 | h2
    · rcases mem_objSetA h2 with h3 | h3
      · exact Or.inl h3
      · exact Or.inr ⟨c, List.mem_cons_self c cs, h3⟩
    · rcases h2 with ⟨c2, hc2, hx⟩
      exact Or.inr ⟨c2, List.mem_cons_of_mem c hc2, hx⟩

theorem mem_nodesFor {parent : PFNode} {children : List PFNode} {d : Int}
    {x : String × PFNode} (h : x ∈ nodesFor parent children d) :
    x = (("path"), parent) ∨ ∃ c ∈ children, x = (c.path, c) := by
  unfold nodesFor at h
  split at h
  · rcases nodesFold_mem children _ x h with h2 | h2
    · left
      rcases List.mem_cons.mp h2 with h3 | h3
      · exact h3
      · cases h3
    · right; exact h2
  · left
    rcases List.mem_cons.mp h with h3 | h3
    · exact h3
    · cases h3

theorem pfp_fold_mem (allProps : Bool) (pairs : List (String × PFNode)) :
    ∀ (acc : List String × List (String × MSEntry)) (x : String × MSEntry),
      x ∈ (pairs.foldl (pfpStep allProps) acc).2 →
      x ∈ acc.2 ∨ ∃ mp n, (mp, n) ∈ pairs
        ∧ ∃ nm, (processNode n mp allProps nm).2 = some x.2 := by
  induction pairs with
  | nil => intro acc x h; exact Or.inl h
  | cons p ps ih =>
    intro acc x h
    rw [List.foldl_cons] at h
    rcases ih _ x h with h2 | h2
    · simp only [pfpStep] at h2
      cases hr : (processNode p.2 p.1 allProps acc.1).2 with
      | none =>
        rw [hr] at h2
        exact Or.inl h2
      | some eV =>
        rw [hr] at h2
        rcases mem_objSetA h2 with h3 | h3
        · exact Or.inl h3
        · refine Or.inr ⟨p.1, p.2, List.mem_cons_self p ps, acc.1, ?_⟩
          rw [hr, h3]
    · rcases h2 with ⟨mp, n, hmem, nm, hpn⟩
      exact Or.inr ⟨mp, n, List.mem_cons_of_mem p hmem, nm, hpn⟩

theorem endsWithSlash_append_slash (s : String) : endsWithSlash (s ++ ("/")) = true := by
  unfold endsWithSlash
  rw [strAppendData]
  rw [show ("/").data = [ '/' ] from rfl]
  rw [List.getLast?_append_cons]
  rfl

theorem endsWithSlash_trimSlashes (s : String) : endsWithSlash (trimSlashes s) = false := by
  unfold endsWithSlash trimSlashes
  cases hg : (trimCharList '/' s.data).getLast? with
  | none => simp [hg]
  | some a =>
    have ha : ¬ a = '/' := trimCharList_getLast '/' s.data a hg
    simp [hg, ha]

theorem expectedHref_coll (node : PFNode) (rp : String) (hc : node.isCollection = true)
    (hrp : rp ≠ ("")) : expectedHref node rp = rp ++ ("/") := by
  simp [expectedHref, hc, bne_iff_ne, hrp]

theorem expectedHref_file (node : PFNode) (rp : String) (hc : node.isCollection = false) :
    expectedHref node rp = rp := by
  simp [expectedHref, hc]

/-! ## Claim theorems -/

/-- Claim C1: a PROPPATCH whose property set includes the protected
{DAV:}getetag is claimed to report 403 for the protected name, never
invoke node.updateProperties, and report 424 for the remaining names.
The code indeed never invokes node.updateProperties, but the returned
result carries no 403 and no 424 bucket at all: the bucket sweep at lines
1883-1888 tests Array length, which ignores the string-keyed entries the
code stored, so the populated buckets are deleted along with the empty
ones and only the href survives.  This evaluation exhibits the divergence
at the spec's own scenario ({DAV:}getetag plus {DAV:}displayname). -/
theorem updateProperties_protected_c1 :
    updateProperties protectedProperties ⟨true, NodeUpdateReply.replyTrue⟩ ("a/b")
      [("\x7bDAV:\x7dgetetag"), ("\x7bDAV:\x7ddisplayname")]
    = Except.ok { buckets := [], href := ("a/b"), calledNodeUpdate := false } := rfl

/-- Claim C2: GET with Range bytes=0-4 on the 10-byte content abcdefghij
is claimed to answer 206 with Content-Range bytes 0-4/10, Content-Length
5 and body abcde.  The status and both headers are as claimed, but the
body is the freshly allocated 5-byte buffer untouched: the source calls
body.copy(newStream, offlen, start), passing offlen as the target start
offset, so zero bytes of the file content are copied. -/
theorem httpGet_range_c2 :
    httpGetRange (("abcdefghij").data.map Char.toNat) 10 (some ("bytes=0-4"))
      = Except.ok { status := 206, contentLength := some 5,
                    contentRange := some ("bytes 0-4/10"), body := List.replicate 5 0 }
    ∧ (List.replicate 5 0 == ("abcde").data.map Char.toNat) = false := by
  exact ⟨rfl, by decide⟩

/-- Claim C3: If-None-Match equal to the node's ETag is claimed to fail
with 412 (non-GET) or a 304 with the redirected flag (GET), including
when a passing If-Match is also present.  The first two conjuncts show
the claimed behaviour without If-Match.  The third shows the divergence:
with a passing If-Match the node variable is already set, the source then
skips the whole If-None-Match evaluation (lines 1285-1287) and the
preconditions pass.  The last conjunct fixes the 412 code. -/
theorem checkPreconditions_ifNoneMatch_c3 :
    checkPreconditions false ⟨none, some ("\"abc\""), none, none⟩
      (some ⟨some ("abc"), none⟩) = PrecondOutcome.failed Exc.preconditionFailed
    ∧ checkPreconditions true ⟨none, some ("\"abc\""), none, none⟩
      (some ⟨some ("abc"), none⟩) = PrecondOutcome.redirected304
    ∧ checkPreconditions false ⟨some ("\"abc\""), some ("\"abc\""), none, none⟩
      (some ⟨some ("abc"), none⟩) = PrecondOutcome.passed
    ∧ Exc.preconditionFailed.code = 412 := by
  exact ⟨rfl, rfl, rfl, rfl⟩

/-- Claim C4: a PROPFIND with Depth: 0 is claimed to traverse only the
target.  In the source every header value is a string, so getHTTPDepth
answers the fallback 1 for the header "0" (the typeof test at line 1729
never sees a number), httpPropfind clamps everything else to 1 as
claimed, and a depth-0 PROPFIND of a one-child collection produces two
entries instead of one. -/
theorem propfind_depth_c4 :
    effectivePropfindDepth (some ("0")) = 1
    ∧ effectivePropfindDepth none = 1
    ∧ effectivePropfindDepth (some ("infinity")) = 1
    ∧ effectivePropfindDepth (some ("2")) = 1
    ∧ (getPropertiesForPath c4root [c4child] []
        (effectivePropfindDepth (some ("0")))).length = 2 := by
  exact ⟨rfl, rfl, rfl, rfl, rfl⟩

/-- Claim C5: when nothing is protected and node.updateProperties returns
true, the result is claimed to keep every requested name in a 200 bucket,
contain no empty buckets, and carry the href.  The href is attached, but
the populated 200 bucket is also swept away, because its entries are
string-keyed and leave Array length at 0; the result carries no bucket at
all. -/
theorem updateProperties_success_c5 :
    updateProperties protectedProperties ⟨true, NodeUpdateReply.replyTrue⟩ ("a/b")
      [("\x7bDAV:\x7ddisplayname")]
    = Except.ok { buckets := [], href := ("a/b"), calledNodeUpdate := true } := rfl

/-- Claim C6: in every multi-status result of getPropertiesForPath, each
entry comes from one of the gathered nodes, and its href ends with a
slash exactly when that node is a collection: collections get the
trailing slash, files never do.  The root collection is gathered under
the literal key "path", whose trimmed path is non-empty, so its href
("path/") also ends with the slash.  Hypotheses: nodes do not pre-declare
resourcetype among their own properties (the built-in provider then
derives it from the ICollection capability), file nodes are not
collections, and child paths trim to a non-empty canonical path, as the
node contract requires. -/
theorem href_trailing_slash_c6 (parent : PFNode) (children : List PFNode)
    (requested : List String) (depthIn : Int)
    (hrtAll : ∀ n ∈ parent :: children, ∀ nm, objGetA (n.getProps nm) rtName = none)
    (hfcAll : ∀ n ∈ parent :: children, n.isFile = true → n.isCollection = false)
    (hcp : ∀ c ∈ children, trimSlashes c.path ≠ ("")) :
    ∀ ke ∈ getPropertiesForPath parent children requested depthIn,
      ∃ mp node,
        ((mp, node) ∈ nodesFor parent children (if depthIn = 0 then 0 else 1)
          ∧ ∃ nm, (processNode node mp requested.isEmpty nm).2 = some ke.2)
        ∧ (node.isCollection = true → endsWithSlash ke.2.href = true)
        ∧ (node.isFile = true → endsWithSlash ke.2.href = false) := by
  intro ke hke
  simp only [getPropertiesForPath] at hke
  rcases pfp_fold_mem requested.isEmpty _ _ ke hke with h | h
  · cases h
  · rcases h with ⟨mp, node, hmem, nm, hpn⟩
    have hmemn : node ∈ parent :: children := by
      rcases mem_nodesFor hmem with h2 | ⟨c, hc, h2⟩
      · rw [Prod.mk.injEq] at h2
        rw [h2.2]
        exact List.mem_cons_self _ _
      · rw [Prod.mk.injEq] at h2
        rw [h2.2]
        exact List.mem_cons_of_mem _ hc
    have hrp : node.isCollection = true → trimSlashes mp ≠ ("") := by
      rcases mem_nodesFor hmem with h2 | ⟨c, hc, h2⟩
      · rw [Prod.mk.injEq] at h2
        intro _
        rw [h2.1]
        decide
      · rw [Prod.mk.injEq] at h2
        intro _
        rw [h2.1]
        exact hcp c hc
    have ehref : ke.2.href = expectedHref node (trimSlashes mp) :=
      processNode_some_href node mp requested.isEmpty nm ke.2 (hrtAll node hmemn) hpn
    refine ⟨mp, node, ⟨hmem, nm, hpn⟩, ?_, ?_⟩
    · intro hc
      rw [ehref, expectedHref_coll node _ hc (hrp hc)]
      exact endsWithSlash_append_slash _
    · intro hf
      rw [ehref, expectedHref_file node _ (hfcAll node hmemn hf)]
      exact endsWithSlash_trimSlashes mp

/-- Witness for C6: an allprop depth-1 listing of a root collection with
one file child and one collection child; the root entry (key "path") is
traced back to the root node and its href carries the trailing slash. -/
theorem href_trailing_slash_c6_witness :
    ∃ mp node,
      ((mp, node) ∈ nodesFor c6root [c6file, c6dir] (if (1 : Int) = 0 then 0 else 1)
        ∧ ∃ nm, (processNode node mp (List.isEmpty ([] : List String)) nm).2
            = some ((("path"), c6rootEntry)).2)
      ∧ (node.isCollection = true
          → endsWithSlash ((("path"), c6rootEntry)).2.href = true)
      ∧ (node.isFile = true
          → endsWithSlash ((("path"), c6rootEntry)).2.href = false) := by
  refine href_trailing_slash_c6 c6root [c6file, c6dir] [] 1 ?_ ?_ ?_
    (("path"), c6rootEntry) (by decide)
  · intro n hn nm
    rcases List.mem_cons.mp hn with rfl | hn
    · rfl
    rcases List.mem_cons.mp hn with rfl | hn
    · rfl
    rcases List.mem_cons.mp hn with rfl | hn
    · rfl
    cases hn
  · intro n hn
    rcases List.mem_cons.mp hn with rfl | hn
    · intro h; exact absurd h (by decide)
    rcases List.mem_cons.mp hn with rfl | hn
    · intro _; rfl
    rcases List.mem_cons.mp hn with rfl | hn
    · intro h; exact absurd h (by decide)
    cases hn
  · intro c hc
    rcases List.mem_cons.mp hc with rfl | hc
    · decide
    rcases List.mem_cons.mp hc with rfl | hc
    · decide
    cases hc

/-- Counterexample to claim C8 as stated: over the base URI /, the uri
&#37;2541 resolves to the path &#37;41, but resolving &#37;41 back against the base
and applying calculateUri again percent-decodes a second time and yields
A, so calculateUri is not idempotent on percent-containing paths. -/
theorem calculateUri_idem_cex_c8 :
    calculateUri ("/") ("/%2541") = Except.ok ("%41")
    ∧ calculateUri ("/") (("/") ++ ("%41")) = Except.ok ("A")
    ∧ ((("A") : String) == ("%41")) = false := by
  refine ⟨rfl, rfl, by decide⟩

/-- Claim C8 (amended): calculateUri maps the base URI itself, with or
without its trailing slash, to the empty path; it is idempotent on every
result that contains no percent sign (re-resolution decodes percent
sequences a second time, which is the counterexample) and introduces no
double slash; and any uri that neither lies under the base URI nor is the
bare base URI fails with Forbidden (403).  The scheme-stripping branch is
kept inactive by requiring the uris to contain no "://". -/
theorem calculateUri_c8 (b : String) :
    (hasSubL [ ':', '/', '/' ] b.data = false → hasDblSlash b = false →
      calculateUri b b = Except.ok (""))
    ∧ (∀ c, b = c ++ ("/") → hasSubL [ ':', '/', '/' ] c.data = false →
        hasDblSlash b = false → calculateUri b c = Except.ok (""))
    ∧ (∀ x r, calculateUri b x = Except.ok r → (∀ ch ∈ r.data, ch ≠ '%') →
        hasDblSlash (b ++ r) = false → hasSubL [ ':', '/', '/' ] (b ++ r).data = false →
        calculateUri b (b ++ r) = Except.ok r)
    ∧ (∀ x, hasSubL [ ':', '/', '/' ] x.data = false → hasDblSlash x = false →
        b.data.isPrefixOf x.data = false → x ++ ("/") ≠ b →
        calculateUri b x = Except.error Exc.forbidden)
    ∧ Exc.forbidden.code = 403 := by
  refine ⟨?_, ?_, ?_, ?_, rfl⟩
  · intro hns hdb
    unfold hasDblSlash at hdb
    simp only [calculateUri, schemeStrip_id hns,
      replaceFirstL_no_occ [ '/', '/' ] [ '/' ] b.data hdb]
    rw [if_pos (isPrefixOf_rfl b.data)]
    rw [List.drop_length]
    rfl
  · intro c hbc hns hdb
    have hdc : hasDblSlash c = false := by
      apply hasDblSlash_of_concat
      rw [← hbc]
      exact hdb
    unfold hasDblSlash at hdc
    simp only [calculateUri, schemeStrip_id hns,
      replaceFirstL_no_occ [ '/', '/' ] [ '/' ] c.data hdc]
    have hp : b.data.isPrefixOf c.data = false := by
      rw [hbc, strAppendData]
      exact isPrefixOf_concat_self_false c.data '/'
    rw [if_neg (by simp [hp])]
    rw [if_pos (by rw [hbc])]
  · intro x r h hpc hdb2 hns2
    have htrim := calculateUri_ok_trim h
    unfold hasDblSlash at hdb2
    simp only [calculateUri, schemeStrip_id hns2,
      replaceFirstL_no_occ [ '/', '/' ] [ '/' ] (b ++ r).data hdb2]
    rw [if_pos (by rw [strAppendData]; exact isPrefixOf_append_self b.data r.data)]
    rw [strAppendData, List.drop_left, unescList_no_pct r.data hpc, htrim]
  · intro x hns hdbx hpre hne
    unfold hasDblSlash at hdbx
    simp only [calculateUri, schemeStrip_id hns,
      replaceFirstL_no_occ [ '/', '/' ] [ '/' ] x.data hdbx]
    rw [if_neg (by simp [hpre])]
    rw [if_neg hne]

/-- Witness for C8 over the base /dav/: the base itself and the bare base
map to the empty path, the result sub re-resolves to itself, and an
outside uri is Forbidden. -/
theorem calculateUri_c8_witness :
    calculateUri ("/dav/") ("/dav/") = Except.ok ("")
    ∧ calculateUri ("/dav/") ("/dav") = Except.ok ("")
    ∧ calculateUri ("/dav/") (("/dav/") ++ ("sub")) = Except.ok ("sub")
    ∧ calculateUri ("/dav/") ("/other") = Except.error Exc.forbidden := by
  refine ⟨?_, ?_, ?_, ?_⟩
  · exact (calculateUri_c8 ("/dav/")).1 rfl rfl
  · exact (calculateUri_c8 ("/dav/")).2.1 ("/dav") (by rfl) rfl rfl
  · exact (calculateUri_c8 ("/dav/")).2.2.1 ("/dav/sub") ("sub") (by rfl) (by decide) rfl rfl
  · exact (calculateUri_c8 ("/dav/")).2.2.2.1 ("/other") rfl rfl rfl (by decide)

/-- Claim C7: MOVE onto an existing destination with Overwrite F fails
with 412 and mutates nothing; a missing Destination header yields 400, an
Overwrite value that is neither T nor F (case-insensitively, the empty
value counting as absent) yields 400, a missing destination parent yields
409, and a non-collection destination parent yields 415.  Exception
status codes are fixed by the final conjuncts. -/
theorem copyMoveInfo_c7 (baseUri : String) (req : CopyMoveReq)
    (tree : String → Option CopyMoveNode) :
    ((∀ src dh dest parent,
      calculateUri baseUri req.url = Except.ok src →
      req.destinationHeader = some dh → dh ≠ ("") →
      calculateUri baseUri dh = Except.ok dest →
      req.overwriteHeader = some ("F") →
      tree (splitPath dest).1 = some parent → parent.isCollection = true →
      (tree dest).isSome = true →
      httpMove baseUri req tree =
        { response := Except.error Exc.preconditionFailed,
          destinationDeleted := false, sourceMoved := false })
    ∧ (∀ src,
      calculateUri baseUri req.url = Except.ok src →
      req.destinationHeader = none →
      getCopyAndMoveInfo baseUri req tree = Except.error Exc.badRequest)
    ∧ (∀ src dh dest ow,
      calculateUri baseUri req.url = Except.ok src →
      req.destinationHeader = some dh → dh ≠ ("") →
      calculateUri baseUri dh = Except.ok dest →
      req.overwriteHeader = some ow → ow ≠ ("") →
      strUpper ow ≠ ("T") → strUpper ow ≠ ("F") →
      getCopyAndMoveInfo baseUri req tree = Except.error Exc.badRequest)
    ∧ (∀ src dh dest,
      calculateUri baseUri req.url = Except.ok src →
      req.destinationHeader = some dh → dh ≠ ("") →
      calculateUri baseUri dh = Except.ok dest →
      req.overwriteHeader = none →
      tree (splitPath dest).1 = none →
      getCopyAndMoveInfo baseUri req tree = Except.error Exc.conflict)
    ∧ (∀ src dh dest parent,
      calculateUri baseUri req.url = Except.ok src →
      req.destinationHeader = some dh → dh ≠ ("") →
      calculateUri baseUri dh = Except.ok dest →
      req.overwriteHeader = none →
      tree (splitPath dest).1 = some parent → parent.isCollection = false →
      getCopyAndMoveInfo baseUri req tree = Except.error Exc.unsupportedMediaType))
    ∧ Exc.preconditionFailed.code = 412 ∧ Exc.badRequest.code = 400
    ∧ Exc.conflict.code = 409 ∧ Exc.unsupportedMediaType.code = 415 := by
  refine ⟨⟨?_, ?_, ?_, ?_, ?_⟩, rfl, rfl, rfl, rfl⟩
  · intro src dh dest parent hsrc hdh hne hdest how hpar hcol hex
    have howp : owParse ("F") = some false := rfl
    simp [httpMove, getCopyAndMoveInfo, hsrc, hdh, hne, hdest, how, hpar, hcol, hex, howp]
  · intro src hsrc hdh
    simp [getCopyAndMoveInfo, hsrc, hdh]
  · intro src dh dest ow hsrc hdh hne hdest how hoe hT hF
    have howp : owParse (if ow = ("") then ("T") else ow) = none := by
      simp [owParse, hoe, hT, hF]
    simp [getCopyAndMoveInfo, hsrc, hdh, hne, hdest, how, howp]
  · intro src dh dest hsrc hdh hne hdest how hpar
    have howp : owParse ("T") = some true := rfl
    simp [getCopyAndMoveInfo, hsrc, hdh, hne, hdest, how, hpar, howp]
  · intro src dh dest parent hsrc hdh hne hdest how hpar hcol
    have howp : owParse ("T") = some true := rfl
    simp [getCopyAndMoveInfo, hsrc, hdh, hne, hdest, how, hpar, hcol, howp]

/-- Witness for C7: MOVE of /a onto the existing /b with Overwrite F over
base / — response 412, nothing deleted, nothing moved. -/
theorem copyMoveInfo_c7_witness :
    httpMove ("/")
      { url := ("/a"), destinationHeader := some ("/b"), overwriteHeader := some ("F") }
      (fun p => if p = ("") then some ⟨true⟩ else if p = ("b") then some ⟨false⟩
                else if p = ("a") then some ⟨false⟩ else none)
    = { response := Except.error Exc.preconditionFailed,
        destinationDeleted := false, sourceMoved := false } := by
  exact (copyMoveInfo_c7 ("/")
      { url := ("/a"), destinationHeader := some ("/b"), overwriteHeader := some ("F") }
      (fun p => if p = ("") then some ⟨true⟩ else if p = ("b") then some ⟨false⟩
                else if p = ("a") then some ⟨false⟩ else none)).1.1
    ("a") ("/b") ("b") ⟨true⟩ rfl rfl (by decide) rfl rfl rfl rfl rfl

/-- Claim C9: with disableListing set, getChildren fails with
MethodNotAllowed while getChild still resolves an exactly named principal
through the backend. -/
theorem principalCollection_c9 (c : PrincipalCollection) (name : String)
    (info : PrincipalInfo)
    (hd : c.disableListing = true)
    (hb : c.backend.principalByPath (c.principalPfx ++ ("/") ++ name) = some info) :
    getChildren c = ChildrenOutcome.failed Exc.methodNotAllowed
    ∧ getChild c name = Except.ok (c.childFor info) := by
  constructor
  · simp [getChildren, hd]
  · simp [getChild, hb]

/-- Witness for C9 at a concrete collection whose backend knows the
principal principals/admin. -/
theorem principalCollection_c9_witness :
    getChildren
      { disableListing := true, principalPfx := ("principals"),
        backend := { principalsByPfx := fun _ => Except.ok [],
                     principalByPath := fun p =>
                       if p = ("principals/admin") then some ⟨("principals/admin")⟩ else none },
        childFor := fun i => i.uri }
      = ChildrenOutcome.failed Exc.methodNotAllowed
    ∧ getChild
      { disableListing := true, principalPfx := ("principals"),
        backend := { principalsByPfx := fun _ => Except.ok [],
                     principalByPath := fun p =>
                       if p = ("principals/admin") then some ⟨("principals/admin")⟩ else none },
        childFor := fun i => i.uri }
      ("admin") = Except.ok (("principals/admin")) := by
  exact principalCollection_c9 _ ("admin") ⟨("principals/admin")⟩ rfl rfl

/-- Claim C10: unserialize yields a property only for a first child named
DAV href, with the auto-prefix flag off, so a further serialize emits
exactly the parsed text without the base URI; in particular the text
produced by any serialize (base-prefixed or not) survives a
parse-unserialize-serialize round trip unchanged. -/
theorem hrefProperty_roundtrip_c10 (dom : XmlDom) (server : HrefServer)
    (s : String) (p : HrefProp) :
    (dom.firstChild.clarkName ≠ hrefClark → unserializeHref dom = none)
    ∧ (dom.firstChild.clarkName = hrefClark →
        unserializeHref dom = some { href := dom.firstChild.textContent, autoPfx := false })
    ∧ (∀ q, unserializeHref dom = some q →
        serializeHref q server s
          = s ++ ("<") ++ server.davNsPfx ++ (":href>") ++ dom.firstChild.textContent
              ++ ("</") ++ server.davNsPfx ++ (":href>"))
    ∧ unserializeHref
        ⟨⟨hrefClark, (if p.autoPfx then server.baseUri else ("")) ++ p.href⟩⟩
      = some ⟨(if p.autoPfx then server.baseUri else ("")) ++ p.href, false⟩ := by
  refine ⟨fun h => ?_, fun h => ?_, fun q hq => ?_, ?_⟩
  · simp [unserializeHref, h]
  · simp [unserializeHref, h]
  · unfold unserializeHref at hq
    by_cases h : dom.firstChild.clarkName = hrefClark
    · simp only [h, if_pos rfl] at hq
      cases hq
      simp [serializeHref]
    · simp [h] at hq
  · simp [unserializeHref]

/-- Witness for C10: the round trip on a concrete auto-prefixed property
over base /dav/ preserves the emitted href text /dav/files. -/
theorem hrefProperty_roundtrip_c10_witness :
    unserializeHref { firstChild := { clarkName := hrefClark, textContent := ("/dav/files") } }
      = some { href := ("/dav/files"), autoPfx := false }
    ∧ serializeHref { href := ("/dav/files"), autoPfx := false }
        { baseUri := ("/dav/"), davNsPfx := ("d") } ("")
      = ("<d:href>/dav/files</d:href>") := by
  constructor
  · exact (hrefProperty_roundtrip_c10
      { firstChild := { clarkName := hrefClark, textContent := ("/dav/files") } }
      { baseUri := ("/dav/"), davNsPfx := ("d") } ("")
      { href := ("files"), autoPfx := true }).2.1 rfl
  · have h := (hrefProperty_roundtrip_c10
      { firstChild := { clarkName := hrefClark, textContent := ("/dav/files") } }
      { baseUri := ("/dav/"), davNsPfx := ("d") } ("")
      { href := ("files"), autoPfx := true }).2.2.1
      { href := ("/dav/files"), autoPfx := false } (by rfl)
    simpa using h

end JsDAV
